import Mathlib

/-!
Verification of `openmm/amberff/buildSystem.py` (md_scripts repository).

The script is a thin command-line pipeline: parse CLI arguments, seed the
RNG, resolve the compute platform and its engine properties, dispatch on the
structure file extension, strip and re-add hydrogens through the OpenMM
toolkit, derive the output file name and write the result without clobbering
an existing file.  Everything below is a shallow embedding of that logic:
pure local logic is translated function by function, the filesystem is an
association list from path to content, and the external toolkit is an
explicit record of abstract functions.
-/

namespace BuildSystem

/-! ### Decimal rendering of naturals

Models Python's `'{}'.format(num)` for a non-negative integer: the usual
base-10 numeral.  A fuel-based digit extraction keeps every definition
structurally recursive, so terms evaluate by kernel reduction. -/

/-- Decimal digit to its character, as in the numeral produced by `format`. -/
def digitChar : Nat → Char
  | 0 => '0' | 1 => '1' | 2 => '2' | 3 => '3' | 4 => '4'
  | 5 => '5' | 6 => '6' | 7 => '7' | 8 => '8' | _ => '9'

/-- Inverse of `digitChar` on decimal digits. -/
def charToDigit : Char → Nat
  | '0' => 0 | '1' => 1 | '2' => 2 | '3' => 3 | '4' => 4
  | '5' => 5 | '6' => 6 | '7' => 7 | '8' => 8 | _ => 9

/-- Base-10 digits of `n`, least significant first, with explicit fuel. -/
def toDigitsAux : Nat → Nat → List Nat
  | 0, _ => []
  | fuel + 1, n => if n = 0 then [] else n % 10 :: toDigitsAux fuel (n / 10)

/-- Value of a least-significant-first digit list. -/
def ofDigitsR : List Nat → Nat
  | [] => 0
  | d :: t => d + 10 * ofDigitsR t

/-- Decimal numeral of `n`; models Python's `str`/`format` on a natural. -/
def natRepr (n : Nat) : String :=
  if n = 0 then "0" else ⟨((toDigitsAux n n).reverse.map digitChar)⟩

/-- Reads a decimal numeral back; used to prove `natRepr` injective. -/
def decodeRepr (s : String) : Nat :=
  ofDigitsR (s.data.reverse.map charToDigit)

/-! ### The filesystem model

The script touches the filesystem through `os.path.isfile`, `os.rename` and
`open(..., 'w')`.  A filesystem is an association list from path to file
content; lookup returns the first entry for a path. -/

/-- A filesystem: a finite list of (path, content) files. -/
abbrev FS := List (String × String)

/-- Content of the file at `p`, if any; models reading a path. -/
def lookupFS : FS → String → Option String
  | [], _ => none
  | e :: t, p => if e.1 = p then some e.2 else lookupFS t p

/-- Models `os.path.isfile(p)`. -/
def isfile (fs : FS) (p : String) : Bool :=
  (lookupFS fs p).isSome

/-- Models `os.rename(old, new)` when no file exists at `new`: every entry
for `old` now lives under `new`, contents unchanged. -/
def renameFS (fs : FS) (old new : String) : FS :=
  fs.map (fun e => if e.1 = old then (new, e.2) else e)

/-- Models `open(p, 'w')` followed by writing `c`: the file at `p` now has
content `c` (the first entry shadows any stale one). -/
def writeFS (fs : FS) (p c : String) : FS :=
  (p, c) :: fs

/-! ### get_filename

Direct translation of the `get_filename` helper of `buildSystem.py`: probe
backup names `#<name>.<num>#` for `num = 1, 2, ...` until one is unused,
rename the pre-existing file there, return the original name.  The unbounded
`while` loop is realised with fuel `fs.length + 1`, which is proved
sufficient below (the candidate names are pairwise distinct, so at most
`fs.length` of them can be occupied). -/

/-- Backup name `'#{}.{}#'.format(rootname, num)` from the rename loop. -/
def backupName (root : String) (num : Nat) : String :=
  "#" ++ root ++ "." ++ natRepr num ++ "#"

/-- The probe loop of `get_filename`: starting at `num`, return the first
`num` whose backup name is not an existing file, giving up after `fuel`
probes. -/
def freeNumAux (fs : FS) (root : String) : Nat → Nat → Nat
  | 0, num => num
  | fuel + 1, num =>
    if isfile fs (backupName root num) then freeNumAux fs root fuel (num + 1)
    else num

/-- The number the probe loop of `get_filename` settles on, starting from 1. -/
def freeNum (fs : FS) (root : String) : Nat :=
  freeNumAux fs root (fs.length + 1) 1

/-- Translation of `get_filename(name)`: returns the name to write to and
the filesystem after the side effects (the rename of a pre-existing file). -/
def get_filename (fs : FS) (name : String) : String × FS :=
  if isfile fs name then
    (name, renameFS fs name (backupName name (freeNum fs name)))
  else
    (name, fs)

/-- A concrete filesystem used to exercise `get_filename`: the desired name
and its first backup candidate both exist already. -/
def exFS : FS :=
  [("out.cif", "old content"), (backupName "out.cif" 1, "older backup")]

/-! ### Extension splitting and format dispatch

Model of `os.path.splitext` (POSIX rules, as in CPython `genericpath`):
the extension starts at the last dot of the last path component, unless
every character between the component start and that dot is itself a dot
(so a leading-dot name like `.bashrc` has no extension). -/

/-- Index of the last occurrence of `c` in `cs`, if any (Python `rfind`). -/
def rfindIdx (cs : List Char) (c : Char) : Option Nat :=
  match cs.reverse.findIdx? (fun x => x == c) with
  | some i => some (cs.length - 1 - i)
  | none => none

/-- Model of `os.path.splitext(p)`. -/
def splitext (p : String) : String × String :=
  let cs := p.data
  match rfindIdx cs '.' with
  | none => (p, "")
  | some d =>
    let sepIdx := rfindIdx cs '/'
    let start := match sepIdx with | none => 0 | some s => s + 1
    let sepOk := match sepIdx with | none => true | some s => decide (s < d)
    if sepOk then
      if (List.range' start (d - start)).any (fun k => !(cs.getD k ' ' == '.')) then
        (⟨cs.take d⟩, ⟨cs.drop d⟩)
      else (p, "")
    else (p, "")

/-- The two structure parsers the script can select. -/
inductive ParserKind
  | pdb
  | cif
deriving DecidableEq

/-- Translation of the extension dispatch (`if fext == '.pdb' ... elif
fext == '.cif' ... else sys.exit(1)`); the error value is the exit status. -/
def selectParser (fext : String) : Except Nat ParserKind :=
  if fext = ".pdb" then Except.ok ParserKind.pdb
  else if fext = ".cif" then Except.ok ParserKind.cif
  else Except.error 1

/-! ### Output filename derivation -/

/-- Model of Python's `s.endswith(t)`. -/
def strEndsWith (s t : String) : Bool :=
  t.data.isSuffixOf s.data

/-- Translation of the `_fname` computation: a truthy `--output` value gets
a `.cif` suffix unless it already ends in `.cif`; otherwise (absent or
empty `--output`) the default is `<input-stem>_H.cif`. -/
def outFname (output : Option String) (fname : String) : String :=
  match output with
  | some o =>
    if o = "" then fname ++ "_H" ++ ".cif"
    else if strEndsWith o ".cif" then o else o ++ ".cif"
  | none => fname ++ "_H" ++ ".cif"

/-! ### Platform, environment, and engine properties -/

/-- An OpenMM platform object; the script only ever reads its name. -/
structure Platform where
  name : String
deriving DecidableEq

/-- The two environment variables the script consults (`os.getenv` yields
`none` when a variable is unset). -/
structure Env where
  cudaVisibleDevices : Option String
  slurmCpusPerTask : Option String
deriving DecidableEq

/-- Translation of the `properties` construction: the resolved platform (or
`none` when `--platform` was absent) and the environment determine the
engine property mapping, built in insertion order. -/
def properties (platform : Option Platform) (env : Env) :
    List (String × String) :=
  match platform with
  | none => []
  | some p =>
    if p.name = "CUDA" then
      let base := [("CudaPrecision", "mixed")]
      match env.cudaVisibleDevices with
      | some gpu_ids =>
        if gpu_ids = "" then base else base ++ [("DeviceIndex", gpu_ids)]
      | none => base
    else if p.name = "CPU" then
      match env.slurmCpusPerTask with
      | some cpu_threads =>
        if cpu_threads = "" then [] else [("Threads", cpu_threads)]
      | none => []
    else []

/-! ### The configuration record

Translation of the `argparse` result `cmd`.  In the script, `cmd.platform`
starts as the requested platform name (a string, or `None`) and line 71
reassigns it to the resolved `Platform` object; the field therefore holds
either a name (`Sum.inl`) or a platform object (`Sum.inr`). -/

/-- The configuration record built from the CLI arguments. -/
structure Config where
  structure_ : String
  output : Option String
  forcefield : String
  platform : Option (String ⊕ Platform)
  seed : Int
deriving DecidableEq

/-- Translation of lines 70-71: `if cmd.platform is not None: cmd.platform =
mm.Platform.getPlatformByName(cmd.platform)`.  Returns the record after the
step; an unknown name raises (models the toolkit's lookup error). -/
def resolvePlatformStep (lookup : String → Option Platform) (c : Config) :
    Except String Config :=
  match c.platform with
  | none => Except.ok c
  | some (Sum.inl nm) =>
    match lookup nm with
    | some p => Except.ok { c with platform := some (Sum.inr p) }
    | none => Except.error nm
  | some (Sum.inr _) => Except.ok c

/-- A platform lookup that resolves every name, for concrete runs. -/
def exLookup : String → Option Platform := fun nm =>
  if nm = "CUDA" ∨ nm = "OpenCL" ∨ nm = "CPU" ∨ nm = "Reference" then
    some ⟨nm⟩
  else none

/-- A concrete CLI configuration requesting the CUDA platform. -/
def exConfig : Config :=
  { structure_ := "prot.pdb", output := none,
    forcefield := "amber99sbildn.xml",
    platform := some (Sum.inl "CUDA"), seed := 917 }

/-! ### Topology and hydrogen normalization -/

/-- Chemical element of an atom; only hydrogen is ever inspected. -/
inductive Element
  | H
  | heavy (sym : String)
deriving DecidableEq

/-- An atom of the parsed topology: an identity plus its element. -/
structure Atom where
  id : Nat
  element : Element
deriving DecidableEq

/-- Translation of lines 114-117: collect every atom whose element is
hydrogen and delete them all from the topology (`modeller.delete`). -/
def stripHydrogens (top : List Atom) : List Atom :=
  let hydrogens := top.filter (fun a => a.element == Element.H)
  top.filter (fun a => decide (a ∉ hydrogens))

/-- The external OpenMM surface the script calls, as an abstract record of
deterministic functions.  `addHydrogens` takes the topology, the forcefield,
the pH and the seeded RNG state. -/
structure Toolkit where
  getPlatformByName : String → Option Platform
  parsePDB : String → Option (List Atom)
  parseCIF : String → Option (List Atom)
  loadForceField : String → Option String
  addHydrogens : List Atom → String → ℚ → Int → List Atom
  writeCIF : List Atom → String

/-- Translation of the hydrogen-normalization step (lines 114-118): strip
all hydrogens, then call `modeller.addHydrogens(forcefield=ff, pH=7.0)`. -/
def addHydrogensStep (tk : Toolkit) (ff : String) (rng : Int)
    (top : List Atom) : List Atom :=
  tk.addHydrogens (stripHydrogens top) ff 7 rng

/-- A concrete toolkit instance used to exercise the pipeline: parsing,
forcefield loading and hydrogen addition are all deterministic functions,
and freshly added hydrogens carry a new atom id. -/
def exToolkit : Toolkit where
  getPlatformByName := exLookup
  parsePDB := fun _ => some [⟨0, Element.heavy "O"⟩, ⟨1, Element.H⟩]
  parseCIF := fun _ => some [⟨0, Element.heavy "O"⟩]
  loadForceField := fun s => some s
  addHydrogens := fun top _ _ _ => top ++ [⟨2, Element.H⟩, ⟨3, Element.H⟩]
  writeCIF := fun top => natRepr top.length

/-! ### The whole pipeline

Translation of the script body in source order: seed the RNG, resolve the
platform (lines 70-71), build the engine properties (lines 79-96, dead
afterwards), split the extension and dispatch (lines 98-106), parse the
structure, load the forcefield, normalize hydrogens (lines 109-118), derive
the output name (lines 122-128) and write through `get_filename`
(lines 130-133). -/

/-- Why a run aborted: an unknown platform name (toolkit exception), the
explicit `sys.exit(1)` on an unsupported extension, or a toolkit exception
while parsing the structure or loading the forcefield. -/
inductive RunError
  | platformNotFound (nm : String)
  | exit (code : Nat)
  | parseError
  | forceFieldError
deriving DecidableEq

/-- Outcome of a successful run: the path written, the mmCIF content, and
the final filesystem. -/
structure RunResult where
  path : String
  content : String
  fs : FS
deriving DecidableEq

/-- The platform object held by the configuration after resolution, as
handed to the properties construction (`cmd.platform` truthiness plus
`getName()`). -/
def platformObj : Option (String ⊕ Platform) → Option Platform
  | none => none
  | some (Sum.inl nm) => some ⟨nm⟩
  | some (Sum.inr p) => some p

/-- Lines 98-133 of the script: everything after platform resolution and
the properties block.  Reads only the structure path, the forcefield name,
the output option and the seed. -/
def runAfterPlatform (tk : Toolkit) (c : Config) (fs : FS) :
    Except RunError RunResult :=
  let rng := c.seed
  let se := splitext c.structure_
  match selectParser se.2 with
  | Except.error code => Except.error (RunError.exit code)
  | Except.ok pk =>
    let parseFn := match pk with
      | ParserKind.pdb => tk.parsePDB
      | ParserKind.cif => tk.parseCIF
    match parseFn c.structure_ with
    | none => Except.error RunError.parseError
    | some top =>
      match tk.loadForceField c.forcefield with
      | none => Except.error RunError.forceFieldError
      | some ff =>
        let top2 := addHydrogensStep tk ff rng top
        let outName := outFname c.output se.1
        let gf := get_filename fs outName
        let content := tk.writeCIF top2
        Except.ok ⟨gf.1, content, writeFS gf.2 gf.1 content⟩

/-- The whole script as a function of the toolkit, CLI configuration,
environment, filesystem and ambient RNG state.  `random.seed(cmd.seed)`
replaces the ambient state `rng0`, which is therefore never read. -/
def run (tk : Toolkit) (c : Config) (env : Env) (fs : FS) (rng0 : Int) :
    Except RunError RunResult :=
  match resolvePlatformStep tk.getPlatformByName c with
  | Except.error nm => Except.error (RunError.platformNotFound nm)
  | Except.ok c1 =>
    let _props := properties (platformObj c1.platform) env
    runAfterPlatform tk c1 fs

/-- Whether the requested platform (if any) resolves without error. -/
def platformResolves (lookup : String → Option Platform) :
    Option (String ⊕ Platform) → Bool
  | none => true
  | some (Sum.inl nm) => (lookup nm).isSome
  | some (Sum.inr _) => true

/-- A concrete configuration whose structure path has an unsupported
extension. -/
def exConfigXYZ : Config :=
  { structure_ := "prot.xyz", output := none,
    forcefield := "amber99sbildn.xml",
    platform := some (Sum.inl "CUDA"), seed := 917 }

/-! ### Specifications and proofs -/

theorem charToDigit_digitChar {d : Nat} (h : d < 10) :
    charToDigit (digitChar d) = d := by
  interval_cases d <;> rfl

theorem toDigitsAux_lt {fuel n d : Nat} (h : d ∈ toDigitsAux fuel n) :
    d < 10 := by
  induction fuel generalizing n with
  | zero => simp [toDigitsAux] at h
  | succ fuel ih =>
    by_cases hn : n = 0
    · simp [toDigitsAux, hn] at h
    · simp only [toDigitsAux, if_neg hn, List.mem_cons] at h
      rcases h with h | h
      · subst h; exact Nat.mod_lt _ (by omega)
      · exact ih h

theorem ofDigitsR_toDigitsAux {fuel n : Nat} (h : n ≤ fuel) :
    ofDigitsR (toDigitsAux fuel n) = n := by
  induction fuel generalizing n with
  | zero => simp [toDigitsAux, ofDigitsR]; omega
  | succ fuel ih =>
    by_cases hn : n = 0
    · simp [toDigitsAux, hn, ofDigitsR]
    · have hdiv : n / 10 ≤ fuel := by
        have := Nat.div_lt_self (Nat.pos_of_ne_zero hn) (by omega : 1 < 10)
        omega
      simp only [toDigitsAux, if_neg hn, ofDigitsR, ih hdiv]
      omega

theorem map_charToDigit_map_digitChar {l : List Nat} (h : ∀ d ∈ l, d < 10) :
    (l.map digitChar).map charToDigit = l := by
  induction l with
  | nil => rfl
  | cons d t ih =>
    simp only [List.map_cons, List.cons.injEq]
    exact ⟨charToDigit_digitChar (h d (List.mem_cons_self d t)),
      ih fun x hx => h x (List.mem_cons_of_mem d hx)⟩

theorem decodeRepr_natRepr (n : Nat) : decodeRepr (natRepr n) = n := by
  by_cases hn : n = 0
  · subst hn; rfl
  · simp only [natRepr, if_neg hn, decodeRepr]
    show ofDigitsR ((((toDigitsAux n n).reverse.map digitChar)).reverse.map charToDigit) = n
    rw [← List.map_reverse, List.reverse_reverse,
      map_charToDigit_map_digitChar (fun d hd => toDigitsAux_lt hd),
      ofDigitsR_toDigitsAux (Nat.le_refl n)]

theorem natRepr_injective : Function.Injective natRepr := by
  intro a b h
  have := congrArg decodeRepr h
  rwa [decodeRepr_natRepr, decodeRepr_natRepr] at this

theorem backupName_injective (root : String) :
    Function.Injective (backupName root) := by
  intro a b h
  apply natRepr_injective
  apply String.ext
  have hd := congrArg String.data h
  simp only [backupName, String.data_append, List.append_assoc] at hd
  have h1 := List.append_cancel_left hd
  have h2 := List.append_cancel_left h1
  have h3 := List.append_cancel_left h2
  exact List.append_cancel_right h3

theorem isfile_mem_keys {fs : FS} {p : String} (h : isfile fs p = true) :
    p ∈ fs.map Prod.fst := by
  induction fs with
  | nil => simp [isfile, lookupFS] at h
  | cons e t ih =>
    by_cases he : e.1 = p
    · simp [he]
    · simp only [isfile, lookupFS, if_neg he] at h
      simp [ih h]

theorem freeNumAux_spec (fs : FS) (root : String) :
    ∀ fuel num,
      (∃ m, num ≤ m ∧ m < num + fuel ∧ isfile fs (backupName root m) = false) →
      isfile fs (backupName root (freeNumAux fs root fuel num)) = false ∧
      num ≤ freeNumAux fs root fuel num ∧
      ∀ j, num ≤ j → j < freeNumAux fs root fuel num →
        isfile fs (backupName root j) = true := by
  intro fuel
  induction fuel with
  | zero =>
    intro num h
    rcases h with ⟨m, h1, h2, _⟩
    omega
  | succ fuel ih =>
    intro num h
    by_cases hocc : isfile fs (backupName root num) = true
    · have hstep : freeNumAux fs root (fuel + 1) num
          = freeNumAux fs root fuel (num + 1) := by
        simp [freeNumAux, hocc]
      rcases h with ⟨m, hm1, hm2, hm3⟩
      have hmne : m ≠ num := by
        intro he
        rw [he, hocc] at hm3
        exact absurd hm3 (by simp)
      have hnext := ih (num + 1) ⟨m, by omega, by omega, hm3⟩
      refine ⟨by rw [hstep]; exact hnext.1, by rw [hstep]; omega, ?_⟩
      intro j hj1 hj2
      rw [hstep] at hj2
      by_cases hjn : j = num
      · rwa [hjn]
      · exact hnext.2.2 j (by omega) hj2
    · have hfree : isfile fs (backupName root num) = false := by
        revert hocc
        cases isfile fs (backupName root num) <;> simp
      have hstep : freeNumAux fs root (fuel + 1) num = num := by
        simp [freeNumAux, hfree]
      rw [hstep]
      exact ⟨hfree, Nat.le_refl num, fun j hj1 hj2 => absurd (Nat.lt_of_le_of_lt hj1 hj2) (Nat.lt_irrefl num)⟩

theorem exists_free_backup (fs : FS) (root : String) :
    ∃ m, 1 ≤ m ∧ m < 1 + (fs.length + 1) ∧
      isfile fs (backupName root m) = false := by
  by_contra hno
  push_neg at hno
  have hall : ∀ m, 1 ≤ m → m < fs.length + 2 →
      isfile fs (backupName root m) = true := by
    intro m h1 h2
    have := hno m h1 (by omega)
    revert this
    cases isfile fs (backupName root m) <;> simp
  have hinj : Function.Injective (fun k : Nat => backupName root (k + 1)) := by
    intro a b hab
    have := backupName_injective root hab
    omega
  have hsub : (Finset.range (fs.length + 1)).image
      (fun k => backupName root (k + 1)) ⊆ (fs.map Prod.fst).toFinset := by
    intro s hs
    rcases Finset.mem_image.mp hs with ⟨k, hk, hks⟩
    rw [List.mem_toFinset, ← hks]
    exact isfile_mem_keys (hall (k + 1) (by omega)
      (by have := Finset.mem_range.mp hk; omega))
  have hcard1 : ((Finset.range (fs.length + 1)).image
      (fun k => backupName root (k + 1))).card = fs.length + 1 := by
    rw [Finset.card_image_of_injective _ hinj, Finset.card_range]
  have hcard2 := Finset.card_le_card hsub
  have hcard3 := (fs.map Prod.fst).toFinset_card_le
  rw [hcard1] at hcard2
  rw [List.length_map] at hcard3
  omega

theorem freeNum_spec (fs : FS) (root : String) :
    isfile fs (backupName root (freeNum fs root)) = false ∧
    1 ≤ freeNum fs root ∧
    ∀ j, 1 ≤ j → j < freeNum fs root →
      isfile fs (backupName root j) = true :=
  freeNumAux_spec fs root (fs.length + 1) 1 (exists_free_backup fs root)

theorem lookup_renameFS_new {fs : FS} {old new : String}
    (h : isfile fs new = false) :
    lookupFS (renameFS fs old new) new = lookupFS fs old := by
  induction fs with
  | nil => rfl
  | cons e t ih =>
    have hen : e.1 ≠ new := by
      intro he
      simp [isfile, lookupFS, he] at h
    have ht : isfile t new = false := by
      simpa [isfile, lookupFS, if_neg hen] using h
    by_cases heo : e.1 = old
    · simp [renameFS, lookupFS, heo]
    · simp only [renameFS, List.map_cons, if_neg heo, lookupFS, if_neg hen,
        if_neg heo]
      exact ih ht

theorem lookup_renameFS_old {fs : FS} {old new : String}
    (h : old ≠ new) :
    lookupFS (renameFS fs old new) old = none := by
  induction fs with
  | nil => rfl
  | cons e t ih =>
    by_cases heo : e.1 = old
    · simp only [renameFS, List.map_cons, if_pos heo, lookupFS]
      rw [if_neg (fun he => h he.symm)]
      exact ih
    · simp only [renameFS, List.map_cons, if_neg heo, lookupFS, if_neg heo]
      exact ih

theorem lookup_renameFS_other {fs : FS} {old new p : String}
    (h1 : p ≠ old) (h2 : p ≠ new) :
    lookupFS (renameFS fs old new) p = lookupFS fs p := by
  induction fs with
  | nil => rfl
  | cons e t ih =>
    by_cases heo : e.1 = old
    · simp only [renameFS, List.map_cons, if_pos heo, lookupFS]
      rw [if_neg (fun he => h2 he.symm), if_neg (by rw [heo]; exact fun he => h1 he.symm)]
      exact ih
    · simp only [renameFS, List.map_cons, if_neg heo, lookupFS]
      by_cases hep : e.1 = p
      · simp [hep]
      · simp only [if_neg hep]
        exact ih

/-- C1: if no file exists at the desired path, `get_filename` uses it as-is;
otherwise it probes backup names `#<path>.<n>#` for increasing `n` from 1
until one names no existing file, renames the pre-existing file at the
original path to that backup name (the smallest unused `n`), and returns the
original path, so the pre-existing file is preserved under the backup name
and never overwritten or deleted. -/
theorem get_filename_spec (fs : FS) (name : String) :
    (get_filename fs name).1 = name ∧
    (isfile fs name = false → (get_filename fs name).2 = fs) ∧
    (isfile fs name = true →
      1 ≤ freeNum fs name ∧
      isfile fs (backupName name (freeNum fs name)) = false ∧
      (∀ j, 1 ≤ j → j < freeNum fs name →
        isfile fs (backupName name j) = true) ∧
      (get_filename fs name).2 =
        renameFS fs name (backupName name (freeNum fs name)) ∧
      lookupFS (get_filename fs name).2 (backupName name (freeNum fs name)) =
        lookupFS fs name ∧
      isfile (get_filename fs name).2 name = false ∧
      (∀ p, p ≠ name → p ≠ backupName name (freeNum fs name) →
        lookupFS (get_filename fs name).2 p = lookupFS fs p)) := by
  refine ⟨?_, ?_, ?_⟩
  · by_cases h : isfile fs name <;> simp [get_filename, h]
  · intro h
    simp [get_filename, h]
  · intro h
    have hspec := freeNum_spec fs name
    have hne : name ≠ backupName name (freeNum fs name) := by
      intro he
      rw [← he] at hspec
      rw [h] at hspec
      exact absurd hspec.1 (by simp)
    have hres : (get_filename fs name).2 =
        renameFS fs name (backupName name (freeNum fs name)) := by
      simp [get_filename, h]
    refine ⟨hspec.2.1, hspec.1, hspec.2.2, hres, ?_, ?_, ?_⟩
    · rw [hres]
      exact lookup_renameFS_new hspec.1
    · rw [hres]
      simp only [isfile, lookup_renameFS_old hne, Option.isSome_none]
    · intro p hp1 hp2
      rw [hres]
      exact lookup_renameFS_other hp1 hp2

/-- Witness for `get_filename_spec` at a filesystem where the target and the
first backup candidate both exist. -/
theorem get_filename_spec_witness :
    isfile exFS "out.cif" = true ∧
    (1 ≤ freeNum exFS "out.cif" ∧
      isfile exFS (backupName "out.cif" (freeNum exFS "out.cif")) = false ∧
      (∀ j, 1 ≤ j → j < freeNum exFS "out.cif" →
        isfile exFS (backupName "out.cif" j) = true) ∧
      (get_filename exFS "out.cif").2 =
        renameFS exFS "out.cif" (backupName "out.cif" (freeNum exFS "out.cif")) ∧
      lookupFS (get_filename exFS "out.cif").2
          (backupName "out.cif" (freeNum exFS "out.cif")) =
        lookupFS exFS "out.cif" ∧
      isfile (get_filename exFS "out.cif").2 "out.cif" = false ∧
      (∀ p, p ≠ "out.cif" → p ≠ backupName "out.cif" (freeNum exFS "out.cif") →
        lookupFS (get_filename exFS "out.cif").2 p = lookupFS exFS p)) :=
  ⟨by decide, (get_filename_spec exFS "out.cif").2.2 (by decide)⟩

/-- C4 counterexample: with `--output ''` (an empty value that does not end
in `.cif`) the code does not append `.cif` to it; it falls back to the
default `<stem>_H.cif` instead, because the empty string is falsy. -/
theorem outFname_empty_output_counterexample :
    strEndsWith "" ".cif" = false ∧
    outFname (some "") "foo" ≠ "" ++ ".cif" ∧
    outFname (some "") "foo" = "foo_H.cif" := by
  decide

/-- C4 (amended): with input `foo.pdb` and no `--output` the output path is
`foo_H.cif`; with `--output bar` it is `bar.cif`; with `--output bar.cif` it
is unchanged; and for every non-empty `--output` value, `.cif` is appended
exactly when the value does not already end in `.cif` (an empty `--output`
value is treated as absent and yields the default). -/
theorem outFname_derivation (o fname : String) (h : o ≠ "") :
    outFname none (splitext "foo.pdb").1 = "foo_H.cif" ∧
    outFname (some "bar") fname = "bar.cif" ∧
    outFname (some "bar.cif") fname = "bar.cif" ∧
    outFname (some o) fname =
      (if strEndsWith o ".cif" then o else o ++ ".cif") := by
  refine ⟨by decide, rfl, rfl, ?_⟩
  simp [outFname, h]

/-- Witness for `outFname_derivation` at the non-empty value `bar`. -/
theorem outFname_derivation_witness :
    outFname none (splitext "foo.pdb").1 = "foo_H.cif" ∧
    outFname (some "bar") "x" = "bar.cif" ∧
    outFname (some "bar.cif") "x" = "bar.cif" ∧
    outFname (some "bar") "x" =
      (if strEndsWith "bar" ".cif" then "bar" else "bar" ++ ".cif") :=
  outFname_derivation "bar" "x" (by decide)

/-- C9: the `.cif` suffix check on the `--output` value is case-sensitive
string matching, so a value ending in an uppercase or mixed-case variant of
`.cif` (any four-character suffix that lowercases to `.cif` but is not
`.cif`) still gets `.cif` appended. -/
theorem outFname_case_sensitive (o v fname : String)
    (h1 : strEndsWith o v = true)
    (h2 : v.data.map Char.toLower = ".cif".data)
    (h3 : v ≠ ".cif") :
    outFname (some o) fname = o ++ ".cif" := by
  have hv : v.data <:+ o.data := by
    simpa [strEndsWith] using h1
  have hvlen : v.data.length = 4 := by
    have := congrArg List.length h2
    simpa using this
  have ho : o ≠ "" := by
    intro he
    subst he
    have hlen := hv.length_le
    rw [hvlen] at hlen
    exact absurd hlen (by decide)
  have hnot : strEndsWith o ".cif" = false := by
    by_contra hb
    have hb' : strEndsWith o ".cif" = true := by
      revert hb
      cases strEndsWith o ".cif" <;> simp
    have hc : (".cif" : String).data <:+ o.data := by
      simpa [strEndsWith] using hb'
    rcases List.suffix_or_suffix_of_suffix hv hc with hs | hs
    · exact h3 (String.ext (hs.eq_of_length (by rw [hvlen]; rfl)))
    · exact h3 (String.ext (hs.eq_of_length (by rw [hvlen]; rfl)).symm)
  simp [outFname, ho, hnot]

/-- Witness for `outFname_case_sensitive` at `--output bar.CIF`, which
yields `bar.CIF.cif`. -/
theorem outFname_case_sensitive_witness :
    strEndsWith "bar.CIF" ".CIF" = true ∧
    ".CIF".data.map Char.toLower = ".cif".data ∧
    (".CIF" : String) ≠ ".cif" ∧
    outFname (some "bar.CIF") "x" = "bar.CIF" ++ ".cif" ∧
    outFname (some "bar.CIF") "x" = "bar.CIF.cif" :=
  ⟨by decide, by decide, by decide,
    outFname_case_sensitive "bar.CIF" ".CIF" "x" (by decide) (by decide)
      (by decide),
    by
      rw [outFname_case_sensitive "bar.CIF" ".CIF" "x" (by decide) (by decide)
        (by decide)]
      decide⟩

/-- C5: with no platform requested the properties mapping is empty; for the
CUDA platform it maps the mixed-precision key, plus a device-index entry
equal to `CUDA_VISIBLE_DEVICES` when that is set and non-empty; for the CPU
platform it maps a thread-count entry equal to `SLURM_CPUS_PER_TASK` when
that is set and non-empty. -/
theorem properties_mapping (env : Env) (g t : String) :
    properties none env = [] ∧
    lookupFS (properties (some ⟨"CUDA"⟩) env) "CudaPrecision" = some "mixed" ∧
    (env.cudaVisibleDevices = some g → g ≠ "" →
      lookupFS (properties (some ⟨"CUDA"⟩) env) "DeviceIndex" = some g) ∧
    (env.slurmCpusPerTask = some t → t ≠ "" →
      lookupFS (properties (some ⟨"CPU"⟩) env) "Threads" = some t) := by
  refine ⟨rfl, ?_, ?_, ?_⟩
  · cases hcv : env.cudaVisibleDevices with
    | none => simp [properties, hcv, lookupFS]
    | some g' =>
      by_cases hg : g' = "" <;> simp [properties, hcv, hg, lookupFS]
  · intro h hg
    simp [properties, h, hg, lookupFS]
  · intro h ht
    simp [properties, h, ht, lookupFS]

/-- Witness for `properties_mapping` with both variables set and non-empty. -/
theorem properties_mapping_witness :
    properties none ⟨some "0,1", some "8"⟩ = [] ∧
    lookupFS (properties (some ⟨"CUDA"⟩) ⟨some "0,1", some "8"⟩)
      "CudaPrecision" = some "mixed" ∧
    lookupFS (properties (some ⟨"CUDA"⟩) ⟨some "0,1", some "8"⟩)
      "DeviceIndex" = some "0,1" ∧
    lookupFS (properties (some ⟨"CPU"⟩) ⟨some "0,1", some "8"⟩)
      "Threads" = some "8" := by
  have h := properties_mapping ⟨some "0,1", some "8"⟩ "0,1" "8"
  exact ⟨h.1, h.2.1, h.2.2.1 rfl (by decide), h.2.2.2 rfl (by decide)⟩

/-- C10: only the exact platform names `CUDA` and `CPU` get tuning
properties; any other resolved platform name leaves the mapping empty, no
matter the environment. -/
theorem properties_other_platform (p : Platform) (env : Env)
    (h1 : p.name ≠ "CUDA") (h2 : p.name ≠ "CPU") :
    properties (some p) env = [] := by
  simp [properties, h1, h2]

/-- Witness for `properties_other_platform` at the GPU-class platform
OpenCL with both environment variables set. -/
theorem properties_other_platform_witness :
    properties (some ⟨"OpenCL"⟩) ⟨some "0,1", some "8"⟩ = [] :=
  properties_other_platform ⟨"OpenCL"⟩ ⟨some "0,1", some "8"⟩
    (by decide) (by decide)

/-- C6 counterexample: the platform-resolution step returns a record whose
platform field differs from the one created from CLI input, so the
configuration record is mutated after creation. -/
theorem config_mutated_counterexample :
    resolvePlatformStep exLookup exConfig =
      Except.ok { exConfig with platform := some (Sum.inr ⟨"CUDA"⟩) } ∧
    ({ exConfig with platform := some (Sum.inr (⟨"CUDA"⟩ : Platform)) } :
      Config) ≠ exConfig :=
  ⟨rfl, by decide⟩

theorem resolvePlatformStep_fields (lookup : String → Option Platform)
    (c c' : Config) (h : resolvePlatformStep lookup c = Except.ok c') :
    c'.structure_ = c.structure_ ∧ c'.output = c.output ∧
    c'.forcefield = c.forcefield ∧ c'.seed = c.seed ∧
    (c.platform = none → c' = c) ∧
    (∀ nm, c.platform = some (Sum.inl nm) →
      ∃ p, lookup nm = some p ∧ c'.platform = some (Sum.inr p)) := by
  cases hp : c.platform with
  | none =>
    rw [resolvePlatformStep, hp] at h
    have hc := Except.ok.inj h
    subst hc
    simp [hp]
  | some s =>
    cases s with
    | inl nm =>
      simp only [resolvePlatformStep, hp] at h
      cases hl : lookup nm with
      | none => rw [hl] at h; exact absurd h (by simp)
      | some p =>
        rw [hl] at h
        have hc := Except.ok.inj h
        subst hc
        refine ⟨rfl, rfl, rfl, rfl, by simp [hp], ?_⟩
        intro nm' hnm'
        have : nm = nm' := by
          injection hnm' with h1
          injection h1
        subst this
        exact ⟨p, hl, rfl⟩
    | inr p =>
      simp only [resolvePlatformStep, hp] at h
      have hc := Except.ok.inj h
      subst hc
      refine ⟨rfl, rfl, rfl, rfl, by simp [hp], ?_⟩
      intro nm hnm
      exact absurd hnm (by simp)

/-- C6 (amended): the configuration record is created once from CLI input
and no field other than platform is ever changed; the platform field is
reassigned exactly once, replacing the requested platform name by the
resolved platform object when a platform was requested. -/
theorem config_mutation_only_platform (lookup : String → Option Platform)
    (c c' : Config) (h : resolvePlatformStep lookup c = Except.ok c') :
    c'.structure_ = c.structure_ ∧ c'.output = c.output ∧
    c'.forcefield = c.forcefield ∧ c'.seed = c.seed ∧
    (c.platform = none → c' = c) ∧
    (∀ nm, c.platform = some (Sum.inl nm) →
      ∃ p, lookup nm = some p ∧ c'.platform = some (Sum.inr p)) :=
  resolvePlatformStep_fields lookup c c' h

/-- Witness for `config_mutation_only_platform` at the concrete CUDA
configuration. -/
theorem config_mutation_only_platform_witness :
    ({ exConfig with platform := some (Sum.inr (⟨"CUDA"⟩ : Platform)) } :
        Config).structure_ = exConfig.structure_ ∧
    (∀ nm, exConfig.platform = some (Sum.inl nm) →
      ∃ p, exLookup nm = some p ∧
        ({ exConfig with platform := some (Sum.inr (⟨"CUDA"⟩ : Platform)) } :
          Config).platform = some (Sum.inr p)) :=
  have h := config_mutation_only_platform exLookup exConfig
    { exConfig with platform := some (Sum.inr ⟨"CUDA"⟩) } rfl
  ⟨h.1, h.2.2.2.2.2⟩

theorem mem_stripHydrogens {top : List Atom} {a : Atom}
    (h : a ∈ stripHydrogens top) : a ∈ top ∧ a.element ≠ Element.H := by
  simp only [stripHydrogens, List.mem_filter, decide_eq_true_eq] at h
  refine ⟨h.1, ?_⟩
  intro hH
  exact h.2 ⟨h.1, by simp [hH]⟩

/-- C2: hydrogen normalization collects every hydrogen atom of the parsed
topology, deletes all of them, and only then invokes the toolkit's
hydrogen-addition routine with the forcefield and a fixed pH of 7.0;
assuming the routine returns only atoms of the stripped topology or fresh
atoms, no pre-existing hydrogen atom survives into the output topology. -/
theorem hydrogen_normalization (tk : Toolkit) (ff : String) (rng : Int)
    (top : List Atom)
    (hfresh : ∀ a ∈ tk.addHydrogens (stripHydrogens top) ff 7 rng,
      a ∈ stripHydrogens top ∨ a ∉ top) :
    (∀ a ∈ stripHydrogens top, a.element ≠ Element.H) ∧
    addHydrogensStep tk ff rng top =
      tk.addHydrogens (stripHydrogens top) ff 7 rng ∧
    (∀ a ∈ top, a.element = Element.H →
      a ∉ addHydrogensStep tk ff rng top) := by
  refine ⟨fun a ha => (mem_stripHydrogens ha).2, rfl, ?_⟩
  intro a ha hH hmem
  rw [addHydrogensStep] at hmem
  rcases hfresh a hmem with hs | hs
  · exact (mem_stripHydrogens hs).2 hH
  · exact hs ha

/-- Witness for `hydrogen_normalization` on a two-atom topology with one
pre-existing hydrogen. -/
theorem hydrogen_normalization_witness :
    (∀ a ∈ exToolkit.addHydrogens
        (stripHydrogens [⟨0, Element.heavy "O"⟩, ⟨1, Element.H⟩])
        "amber99sbildn.xml" 7 917,
      a ∈ stripHydrogens [⟨0, Element.heavy "O"⟩, ⟨1, Element.H⟩] ∨
        a ∉ [⟨0, Element.heavy "O"⟩, (⟨1, Element.H⟩ : Atom)]) ∧
    (∀ a ∈ [⟨0, Element.heavy "O"⟩, (⟨1, Element.H⟩ : Atom)],
      a.element = Element.H →
      a ∉ addHydrogensStep exToolkit "amber99sbildn.xml" 917
        [⟨0, Element.heavy "O"⟩, ⟨1, Element.H⟩]) :=
  ⟨by decide,
    (hydrogen_normalization exToolkit "amber99sbildn.xml" 917
      [⟨0, Element.heavy "O"⟩, ⟨1, Element.H⟩] (by decide)).2.2⟩

theorem resolves_ok (lookup : String → Option Platform) (c : Config)
    (h : platformResolves lookup c.platform = true) :
    ∃ c', resolvePlatformStep lookup c = Except.ok c' := by
  cases hp : c.platform with
  | none => exact ⟨c, by simp [resolvePlatformStep, hp]⟩
  | some s =>
    cases s with
    | inl nm =>
      rw [hp] at h
      simp only [platformResolves] at h
      rcases Option.isSome_iff_exists.mp h with ⟨p, hl⟩
      exact ⟨{ c with platform := some (Sum.inr p) },
        by simp [resolvePlatformStep, hp, hl]⟩
    | inr p => exact ⟨c, by simp [resolvePlatformStep, hp]⟩

theorem runAfterPlatform_congr (tk : Toolkit) (c₁ c₂ : Config) (fs : FS)
    (hs : c₁.structure_ = c₂.structure_) (ho : c₁.output = c₂.output)
    (hf : c₁.forcefield = c₂.forcefield) (hd : c₁.seed = c₂.seed) :
    runAfterPlatform tk c₁ fs = runAfterPlatform tk c₂ fs := by
  cases c₁
  cases c₂
  simp only at hs ho hf hd
  subst hs
  subst ho
  subst hf
  subst hd
  rfl

/-- C3: format dispatch on the structure path's extension is exact and
case-sensitive: extension `.pdb` selects the PDB parser, `.cif` selects the
mmCIF parser, and for every other extension the script exits with status 1
before parsing any structure or writing any output file (the error is the
run's result, so no parse, forcefield load or write happens); stated for
runs whose earlier platform-resolution step does not itself abort. -/
theorem format_dispatch (tk : Toolkit) (c : Config) (env : Env) (fs : FS)
    (rng0 : Int)
    (hplat : platformResolves tk.getPlatformByName c.platform = true)
    (hext1 : (splitext c.structure_).2 ≠ ".pdb")
    (hext2 : (splitext c.structure_).2 ≠ ".cif") :
    selectParser ".pdb" = Except.ok ParserKind.pdb ∧
    selectParser ".cif" = Except.ok ParserKind.cif ∧
    (∀ e : String, e ≠ ".pdb" → e ≠ ".cif" →
      selectParser e = Except.error 1) ∧
    run tk c env fs rng0 = Except.error (RunError.exit 1) := by
  obtain ⟨c1, hc1⟩ := resolves_ok tk.getPlatformByName c hplat
  have hfields := resolvePlatformStep_fields tk.getPlatformByName c c1 hc1
  have hsel : selectParser (splitext c1.structure_).2 = Except.error 1 := by
    rw [hfields.1]
    simp [selectParser, hext1, hext2]
  refine ⟨rfl, rfl, ?_, ?_⟩
  · intro e h1 h2
    simp [selectParser, h1, h2]
  · simp only [run, hc1]
    simp only [runAfterPlatform, hsel]

/-- Witness for `format_dispatch` at the extension `.xyz` with a platform
that resolves. -/
theorem format_dispatch_witness :
    selectParser ".pdb" = Except.ok ParserKind.pdb ∧
    selectParser ".cif" = Except.ok ParserKind.cif ∧
    (∀ e : String, e ≠ ".pdb" → e ≠ ".cif" →
      selectParser e = Except.error 1) ∧
    run exToolkit exConfigXYZ ⟨none, none⟩ [] 0 =
      Except.error (RunError.exit 1) :=
  format_dispatch exToolkit exConfigXYZ ⟨none, none⟩ [] 0
    (by decide) (by decide) (by decide)

/-- C7: with the external toolkit modelled as deterministic functions and
the RNG reseeded from the configured seed, two runs with the same seed,
input and filesystem produce identical results — in particular structurally
identical output topologies — whatever ambient RNG states the two runs
start from. -/
theorem run_deterministic (tk : Toolkit) (c : Config) (env : Env) (fs : FS)
    (r1 r2 : Int) :
    run tk c env fs r1 = run tk c env fs r2 := rfl

/-- C8: the resolved platform object and the properties mapping are never
passed to a later toolkit call, so — provided the requested platform
resolves — the run's result (and hence the written output file) is
independent of the `--platform` value and of the `CUDA_VISIBLE_DEVICES` and
`SLURM_CPUS_PER_TASK` environment variables. -/
theorem run_platform_noninterference (tk : Toolkit) (c : Config)
    (env1 env2 : Env) (p1 p2 : Option (String ⊕ Platform)) (fs : FS)
    (r1 r2 : Int)
    (h1 : platformResolves tk.getPlatformByName p1 = true)
    (h2 : platformResolves tk.getPlatformByName p2 = true) :
    run tk { c with platform := p1 } env1 fs r1 =
      run tk { c with platform := p2 } env2 fs r2 := by
  obtain ⟨c1, hc1⟩ := resolves_ok tk.getPlatformByName
    { c with platform := p1 } h1
  obtain ⟨c2, hc2⟩ := resolves_ok tk.getPlatformByName
    { c with platform := p2 } h2
  have hf1 := resolvePlatformStep_fields tk.getPlatformByName _ c1 hc1
  have hf2 := resolvePlatformStep_fields tk.getPlatformByName _ c2 hc2
  simp only [run, hc1, hc2]
  exact runAfterPlatform_congr tk c1 c2 fs
    (hf1.1.trans hf2.1.symm) (hf1.2.1.trans hf2.2.1.symm)
    (hf1.2.2.1.trans hf2.2.2.1.symm) (hf1.2.2.2.1.trans hf2.2.2.2.1.symm)

/-- Witness for `run_platform_noninterference`: a CUDA run with devices
visible equals a platform-less run in an empty environment. -/
theorem run_platform_noninterference_witness :
    run exToolkit { exConfig with platform := some (Sum.inl "CUDA") }
        ⟨some "0,1", some "8"⟩ [] 3 =
      run exToolkit { exConfig with platform := none } ⟨none, none⟩ [] 42 :=
  run_platform_noninterference exToolkit exConfig
    ⟨some "0,1", some "8"⟩ ⟨none, none⟩
    (some (Sum.inl "CUDA")) none [] 3 42 (by decide) (by decide)

end BuildSystem
